import Mathlib

/-!
Shallow embedding of the Typesaurus Firestore helper layer
(src/helpers/index.ts): the data marshaller (unwrapData / wrapData),
path parsing (getRefPath / pathToRef), document references, the
RichCollection operations update / set / add / getMany, and the query
compiler of RichCollection.query, together with proofs settling the
specification claims about them.
-/

/-!
JavaScript-level values flowing through the marshaller.  Each runtime
class the source discriminates on (by `data.type` tag, `instanceof Date`,
`instanceof firestore.Timestamp`, `instanceof firestore.DocumentReference`)
gets its own constructor:

* `vRef` is a Typesaurus `Ref` instance (`type === 'ref'`), reduced to its
  collection path and id (a `RichCollection`'s only state is its path);
* `vDocRef` is a Firestore `DocumentReference`, reduced to its path;
* `vRemoveS` .. `vServerDateS` are Typesaurus field-value sentinels
  (`type === 'value'` with the respective `kind`);
* `fvDelete` .. `fvServerTimestamp` are the native Firestore
  `FieldValue` results those sentinels are encoded into;
* `vDate` / `vTimestamp` are `Date` and `firestore.Timestamp`, reduced to
  their epoch instant (`Timestamp.fromDate` / `Timestamp#toDate` translate
  between the two, preserving the instant);
* `vArr` / `vObj` are plain arrays and plain objects.

Opaque class instances (`vTimestamp`, `vDocRef`, the native field values)
carry no enumerable model fields here, so the source's generic
object-copy branch acts on them as the identity in this model.
-/

mutual

inductive JSValue where
  | vNull
  | vUndefined
  | vBool (b : Bool)
  | vNum (n : Int)
  | vStr (s : String)
  | vDate (ms : Int)
  | vTimestamp (ms : Int)
  | vRef (collectionPath id : String)
  | vDocRef (path : String)
  | vRemoveS
  | vIncrementS (n : Int)
  | vArrayUnionS (values : JSList)
  | vArrayRemoveS (values : JSList)
  | vServerDateS
  | fvDelete
  | fvIncrement (n : Int)
  | fvArrayUnion (values : JSList)
  | fvArrayRemove (values : JSList)
  | fvServerTimestamp
  | vArr (elems : JSList)
  | vObj (fields : JSFields)

inductive JSList where
  | nil
  | cons (v : JSValue) (vs : JSList)

inductive JSFields where
  | fnil
  | fcons (key : String) (value : JSValue) (rest : JSFields)

end

/-- Is this value the JavaScript `undefined`? -/
def isUndef : JSValue → Bool
  | .vUndefined => true
  | _ => false

/-- A Typesaurus document reference: `new Ref(new RichCollection(path), id)`
reduced to its two strings. -/
structure RefM where
  collectionPath : String
  id : String
deriving DecidableEq, Repr

/-- Source `getRefPath`: `[ref.collection.path].concat(ref.id).join('/')`. -/
def getRefPath (ref : RefM) : String :=
  ref.collectionPath ++ "/" ++ ref.id

/-- Scan of the reversed character list implementing the greedy regex
`^(.+)\/(.+)$` of source `pathToRef`: the match splits the string at the
last `/` that has at least one character on each side.  The first
component of the result is the (still reversed) prefix before that slash,
the second the suffix after it (in order); `acc` holds the characters
already passed over, in order. -/
def splitLastSlash : List Char → List Char → Option (List Char × List Char)
  | [], _ => none
  | c :: rest, acc =>
    if c = '/' ∧ acc ≠ [] ∧ rest ≠ [] then some (rest, acc)
    else splitLastSlash rest (c :: acc)

/-- Source `pathToRef`: match the path against `^(.+)\/(.+)$` and build a
`Ref` from the two captures; throw (modelled as `Except.error`) when the
regex does not match. -/
def pathToRef (path : String) : Except String RefM :=
  match splitLastSlash path.data.reverse [] with
  | some (revColl, idChars) =>
    .ok ⟨String.mk revColl.reverse, String.mk idChars⟩
  | none => .error ("Cannot parse path " ++ path)

mutual

/-- Source `unwrapData`: convert Typesaurus data to Firestore format.
`Ref`s become document handles addressed by `getRefPath`, field-value
sentinels become the corresponding native `FieldValue`s (their `values`
arrays recursively unwrapped), `Date` becomes `Timestamp`, plain arrays
and objects are copied with each member unwrapped, `undefined` becomes
`null`, and everything else passes through. -/
def unwrapData : JSValue → JSValue
  | .vRef collectionPath id => .vDocRef (getRefPath ⟨collectionPath, id⟩)
  | .vRemoveS => .fvDelete
  | .vIncrementS n => .fvIncrement n
  | .vArrayUnionS values => .fvArrayUnion (unwrapList values)
  | .vArrayRemoveS values => .fvArrayRemove (unwrapList values)
  | .vServerDateS => .fvServerTimestamp
  | .vDate ms => .vTimestamp ms
  | .vArr elems => .vArr (unwrapList elems)
  | .vObj fields => .vObj (unwrapFields fields)
  | .vUndefined => .vNull
  | v => v

/-- Elementwise `unwrapData` over an array (the source's key loop over the
copied container). -/
def unwrapList : JSList → JSList
  | .nil => .nil
  | .cons v vs => .cons (unwrapData v) (unwrapList vs)

/-- Elementwise `unwrapData` over an object's fields. -/
def unwrapFields : JSFields → JSFields
  | .fnil => .fnil
  | .fcons k v rest => .fcons k (unwrapData v) (unwrapFields rest)

end

mutual

/-- Source `wrapData`: convert Firestore data to Typesaurus format.
`DocumentReference`s become `Ref`s via `pathToRef` (whose exception
propagates), `Timestamp`s become `Date`s, plain arrays and objects are
copied with each member wrapped, and everything else passes through. -/
def wrapData : JSValue → Except String JSValue
  | .vDocRef path =>
    match pathToRef path with
    | .ok r => .ok (.vRef r.collectionPath r.id)
    | .error e => .error e
  | .vTimestamp ms => .ok (.vDate ms)
  | .vArr elems =>
    match wrapList elems with
    | .ok l => .ok (.vArr l)
    | .error e => .error e
  | .vObj fields =>
    match wrapFields fields with
    | .ok fs => .ok (.vObj fs)
    | .error e => .error e
  | v => .ok v

/-- Elementwise `wrapData` over an array. -/
def wrapList : JSList → Except String JSList
  | .nil => .ok .nil
  | .cons v vs =>
    match wrapData v with
    | .error e => .error e
    | .ok w =>
      match wrapList vs with
      | .error e => .error e
      | .ok ws => .ok (.cons w ws)

/-- Elementwise `wrapData` over an object's fields. -/
def wrapFields : JSFields → Except String JSFields
  | .fnil => .ok .fnil
  | .fcons k v rest =>
    match wrapData v with
    | .error e => .error e
    | .ok w =>
      match wrapFields rest with
      | .error e => .error e
      | .ok ws => .ok (.fcons k w ws)

end

/-- A field edit key of an update edit list: a plain string or an array of
path segments. -/
inductive UpdateKey where
  | str (s : String)
  | segs (l : List String)

/-- One `\x7bkey, value\x7d` entry of an update edit list. -/
structure FieldEdit where
  key : UpdateKey
  value : JSValue

/-- Source key normalization `Array.isArray(key) ? key.join('.') : key`. -/
def updateKeyName : UpdateKey → String
  | .str s => s
  | .segs l => String.intercalate "." l

/-- JavaScript property assignment `acc[k] = v` on a plain object:
overwrite an existing key in place, otherwise append. -/
def objSet : JSFields → String → JSValue → JSFields
  | .fnil, k, v => .fcons k v .fnil
  | .fcons k0 v0 rest, k, v =>
    if k0 = k then .fcons k0 v rest else .fcons k0 v0 (objSet rest k v)

/-- The `reduce` over an edit list in source `RichCollection.update`.  Its
callback reads `if (!field) return` — for a falsy entry it returns, with
no value, so the accumulator of the next iteration is `undefined`
(modelled as `none`); the assignment `acc[...] = value` of a later
truthy entry then throws a `TypeError`, modelled as `Except.error`. -/
def updateReduce : List (Option FieldEdit) → Option JSFields → Except String (Option JSFields)
  | [], acc => .ok acc
  | none :: rest, _ => updateReduce rest none
  | some e :: rest, some acc =>
    updateReduce rest (some (objSet acc (updateKeyName e.key) e.value))
  | some _ :: _, none => .error "TypeError: cannot set properties of undefined"

/-- An argument to `RichCollection.update`: a plain partial value or an
ordered edit list whose entries may be falsy (`none`). -/
inductive UpdateArg where
  | plain (v : JSValue)
  | edits (l : List (Option FieldEdit))

/-- Source `RichCollection.update`, up to the value handed to
`firebaseDoc(id).update(unwrapData(update))`: an edit list is folded by
`reduce` from a fresh empty object, a `TypeError` thrown inside the fold
propagates, and the (possibly `undefined`) result is unwrapped. -/
def updatePayload : UpdateArg → Except String JSValue
  | .plain v => .ok (unwrapData v)
  | .edits l =>
    match updateReduce l (some .fnil) with
    | .error e => .error e
    | .ok (some fields) => .ok (unwrapData (.vObj fields))
    | .ok none => .ok (unwrapData .vUndefined)

/-- Write helper `serverDate` of `writeHelpers`. -/
def serverDate : JSValue := .vServerDateS

/-- Write helper `remove` of `writeHelpers`. -/
def remove : JSValue := .vRemoveS

/-- Write helper `increment` of `writeHelpers`. -/
def increment (n : Int) : JSValue := .vIncrementS n

/-- Write helper `arrayUnion` of `writeHelpers` (the source coerces a
scalar argument to an array with `[].concat(values)`; the model takes the
array). -/
def arrayUnion (values : JSList) : JSValue := .vArrayUnionS values

/-- Write helper `arrayRemove` of `writeHelpers`. -/
def arrayRemove (values : JSList) : JSValue := .vArrayRemoveS values

/-- An argument to a write operation: a plain value or a callback producing
one from the write helpers (the helpers are a constant record, so
invoking the callback is modelled as application to `()`). -/
inductive WriteArg where
  | literal (v : JSValue)
  | fn (f : Unit → JSValue)

/-- Source resolution `typeof data === 'function' ? data(this.writeHelpers()) : data`
performed by `add` and `upset`. -/
def resolveWriteArg : WriteArg → JSValue
  | .literal v => v
  | .fn f => f ()

/-- A value handed to a Firestore write primitive: ordinary data, or a raw
JavaScript function object (`unwrapData` passes a function through
unchanged — a function is neither an object nor `undefined`, so it falls
into the final `return data` branch). -/
inductive StoreWrite where
  | value (v : JSValue)
  | rawFunction (f : Unit → JSValue)

/-- Source `RichCollection.set`: `firebaseDoc(id).set(unwrapData(data))` —
the argument goes to `unwrapData` directly, with no typeof-function
resolution, so a callback argument reaches the store as the raw function
object. -/
def setPayload : WriteArg → StoreWrite
  | .literal v => .value (unwrapData v)
  | .fn f => .rawFunction f

/-- Source `RichCollection.add`: resolves a callback argument with the
write helpers, then encodes the result with `unwrapData`. -/
def addPayload (a : WriteArg) : StoreWrite :=
  .value (unwrapData (resolveWriteArg a))

/-- Source `RichCollection.upset`: the same resolution as `add`, written
with the merge flag set. -/
def upsetPayload (a : WriteArg) : StoreWrite :=
  .value (unwrapData (resolveWriteArg a))

/-- A decoded Typesaurus document (`new Doc(collection, id, data)`), reduced
to its id and data (the collection is the same for every document of one
call). -/
structure DocM where
  id : String
  data : JSValue

/-- The remote store contents for one collection, looked up by document id
(the data is what `DocumentSnapshot#data()` would return; `none` means
the snapshot does not exist). -/
def lookupStore (store : List (String × JSValue)) (id : String) : Option JSValue :=
  (store.find? fun p => p.1 == id).map (·.2)

/-- Source `defaultOnMissing`: throws `Missing document with id $\x7bid\x7d`. -/
def defaultOnMissing (id : String) : Except String JSValue :=
  .error ("Missing document with id " ++ id)

/-- The `onMissing` option of `getMany`: the string policy `'ignore'`, or a
callback synthesizing placeholder data for a missing id. -/
inductive OnMissingOpt where
  | ignore
  | callback (f : String → JSValue)

/-- Body of the `.map` over the snapshots in source `getMany`: a missing
snapshot is dropped (`null`) under `'ignore'`, otherwise built from the
callback — `options?.onMissing || defaultOnMissing`, where
`defaultOnMissing` throws; a found snapshot's data is decoded with
`wrapData`. -/
def processSnap (onMissing : Option OnMissingOpt) (id : String) :
    Option JSValue → Except String (Option DocM)
  | none =>
    match onMissing with
    | some .ignore => .ok none
    | some (.callback f) => .ok (some ⟨id, f id⟩)
    | none =>
      match defaultOnMissing id with
      | .error e => .error e
      | .ok v => .ok (some ⟨id, v⟩)
  | some d =>
    match wrapData d with
    | .error e => .error e
    | .ok w => .ok (some ⟨id, w⟩)

/-- The sequential `.map(...).filter((doc) => doc != null)` of source
`getMany`: the first exception thrown while processing the snapshots in
order propagates; `null` entries are filtered out of the result. -/
def mapSnaps (onMissing : Option OnMissingOpt) :
    List (String × Option JSValue) → Except String (List DocM)
  | [] => .ok []
  | (id, d) :: rest =>
    match processSnap onMissing id d with
    | .error e => .error e
    | .ok r =>
      match mapSnaps onMissing rest with
      | .error e => .error e
      | .ok rs =>
        match r with
        | none => .ok rs
        | some doc => .ok (doc :: rs)

/-- Source `RichCollection.getMany`, paired with the number of `getAll`
round trips performed: an empty id list short-circuits to `[]` before
`firestore().getAll` is called (the comment in the source notes that
`getAll` rejects empty argument lists); otherwise a single `getAll`
fetches the snapshots in id order and they are mapped and filtered. -/
def getMany (store : List (String × JSValue)) (ids : List String)
    (onMissing : Option OnMissingOpt) : Except String (List DocM) × Nat :=
  if ids.length = 0 then (.ok [], 0)
  else (mapSnaps onMissing (ids.map fun id => (id, lookupStore store id)), 1)

/-- A query field: the `docId` placeholder (a `DocId` class instance), a
plain field name, or an array of path segments. -/
inductive QField where
  | docId
  | name (s : String)
  | path (segs : List String)

/-- A cursor value before resolution: a plain value, or a Typesaurus `Doc`
(an object with `value.type == 'doc'`), reduced to its id and data. -/
inductive CursorVal where
  | plain (v : JSValue)
  | doc (id : String) (data : JSFields)

/-- One cursor attached to an `order` directive: a position
(`startAt` / `startAfter` / `endAt` / `endBefore`, as produced by the
query helpers) and a value. -/
structure CursorM where
  position : String
  value : CursorVal

/-- A query directive produced by the query helpers `order`, `where` and
`limit`. -/
inductive Directive where
  | order (field : QField) (method : String) (cursors : Option (List CursorM))
  | whereD (field : QField) (filter : String) (value : JSValue)
  | limit (n : Nat)

/-- A field selector handed to the Firestore query: the store's native
document-id selector `FieldPath.documentId()`, or a field path string. -/
inductive FieldSel where
  | documentId
  | fieldPath (s : String)
deriving DecidableEq, Repr

/-- Field selection of the source `order` branch:
`field instanceof DocId ? FieldPath.documentId() : field.toString()`
(JavaScript `toString` of an array joins its elements with `,`). -/
def orderFieldSel : QField → FieldSel
  | .docId => .documentId
  | .name s => .fieldPath s
  | .path segs => .fieldPath (String.intercalate "," segs)

/-- Field selection of the source `where` branch:
`Array.isArray(field) ? field.join('.') : field`, then
`fieldName instanceof DocId ? FieldPath.documentId() : fieldName`. -/
def whereFieldSel : QField → FieldSel
  | .docId => .documentId
  | .name s => .fieldPath s
  | .path segs => .fieldPath (String.intercalate "." segs)

/-- JavaScript property read `obj[k]`: the binding of `k`, or `undefined`
when the key is absent. -/
def objGet : JSFields → String → JSValue
  | .fnil, _ => .vUndefined
  | .fcons k0 v rest, k => if k0 = k then v else objGet rest k

/-- Cursor-value resolution performed in the source `order` branch: a
`Doc`-valued cursor resolves to the document's id (`value.ref.id`) when
the order field is the `docId` placeholder, else to `value.data[field]`
(JavaScript stringifies an array key, joining with `,`); a plain value
passes through unchanged. -/
def resolveCursorVal (field : QField) : CursorVal → JSValue
  | .plain v => v
  | .doc id data =>
    match field with
    | .docId => .vStr id
    | .name s => objGet data s
    | .path segs => objGet data (String.intercalate "," segs)

/-- The query accumulator built by the `queries.forEach` loop: the
`orderBy` / `where` / `limit` calls applied to the Firestore query so
far, plus the collected resolved-cursor list. -/
structure QState where
  orderBys : List (FieldSel × String)
  wheres : List (FieldSel × String × JSValue)
  limits : List Nat
  cursors : List (String × JSValue)

/-- The initial accumulator: the bare collection query and an empty cursor
list. -/
def initQState : QState := ⟨[], [], [], []⟩

/-- One iteration of the `queries.forEach` switch in source
`RichCollection.query`. -/
def qstep (st : QState) : Directive → QState
  | .order field method curs =>
    { st with
      orderBys := st.orderBys ++ [(orderFieldSel field, method)]
      cursors := st.cursors ++
        (match curs with
         | some cs => cs.map fun c => (c.position, resolveCursorVal field c.value)
         | none => []) }
  | .whereD field filter value =>
    { st with wheres := st.wheres ++ [(whereFieldSel field, filter, unwrapData value)] }
  | .limit n =>
    { st with limits := st.limits ++ [n] }

/-- One iteration of the cursor-grouping loop: find the entry for this
cursor's position, creating it at the end when absent, and push the
already-unwrapped value onto that entry. -/
def pushGroup (gs : List (String × List JSValue)) (pos : String) (v : JSValue) :
    List (String × List JSValue) :=
  if gs.any fun g => g.1 == pos then
    gs.map fun g => if g.1 == pos then (g.1, g.2 ++ [v]) else g
  else gs ++ [(pos, [v])]

/-- Source grouping of the collected cursors by position, encoding each
value with `unwrapData` as it is pushed. -/
def groupCursors (cursors : List (String × JSValue)) : List (String × List JSValue) :=
  cursors.foldl (fun gs c => pushGroup gs c.1 (unwrapData c.2)) []

/-- A fully compiled query: the accumulator contents plus the grouped
cursor-method applications actually performed on the query. -/
structure CompiledQuery where
  orderBys : List (FieldSel × String)
  wheres : List (FieldSel × String × JSValue)
  limits : List Nat
  cursors : List (String × JSValue)
  cursorApps : List (String × List JSValue)

/-- Source `RichCollection.query` compilation: fold the directives into the
accumulator, group the collected cursors by position, and apply the
grouped cursor methods only under the guard
`cursors.length && cursors.every((cursor) => cursor.value !== undefined)`. -/
def compileQuery (qs : List Directive) : CompiledQuery :=
  let st := qs.foldl qstep initQState
  let apps :=
    if st.cursors.length ≠ 0 ∧ ∀ c ∈ st.cursors, isUndef c.2 = false
    then groupCursors st.cursors else []
  ⟨st.orderBys, st.wheres, st.limits, st.cursors, apps⟩

/-!
Properties of `pathToRef`.  The source regex `^(.+)\/(.+)$` is greedy, so
a path with several separators still matches, splitting at the last
separator that leaves a character on each side.
-/

/-- Scanning a slash-free block of characters only moves them onto the
accumulator. -/
theorem splitLastSlash_skip (rs : List Char) :
    ∀ (rest acc : List Char), (∀ c ∈ rs, c ≠ '/') →
      splitLastSlash (rs ++ rest) acc = splitLastSlash rest (rs.reverse ++ acc) := by
  induction rs with
  | nil => intro rest acc _; simp
  | cons c cs ih =>
    intro rest acc h
    have hc : c ≠ '/' := h c (List.mem_cons_self ..)
    have hcs : ∀ x ∈ cs, x ≠ '/' := fun x hx => h x (List.mem_cons_of_mem _ hx)
    simp only [List.cons_append, splitLastSlash]
    rw [if_neg (by simp [hc])]
    simp only [List.append_eq]
    rw [ih rest (c :: acc) hcs]
    simp

/-- Scanning a slash-free character list never matches. -/
theorem splitLastSlash_none (rs acc : List Char) (h : ∀ c ∈ rs, c ≠ '/') :
    splitLastSlash rs acc = none := by
  have hskip := splitLastSlash_skip rs [] acc h
  rw [List.append_nil] at hskip
  rw [hskip]
  rfl

/-- Success case of `pathToRef`: a non-empty collection path (which may
itself contain separators) followed by a separator and a non-empty,
slash-free id parses back into exactly those two components, because the
greedy regex splits at the last eligible separator. -/
theorem pathToRef_append (a b : String)
    (ha : a.data ≠ []) (hb : b.data ≠ []) (hslash : ∀ c ∈ b.data, c ≠ '/') :
    pathToRef (a ++ "/" ++ b) = .ok ⟨a, b⟩ := by
  obtain ⟨da⟩ := a
  obtain ⟨db⟩ := b
  have hdata : ((⟨da⟩ : String) ++ "/" ++ ⟨db⟩).data = da ++ '/' :: db := by
    simp [String.data_append]
  unfold pathToRef
  rw [hdata]
  have hrev : (da ++ '/' :: db).reverse = db.reverse ++ '/' :: da.reverse := by
    simp [List.reverse_append]
  rw [hrev,
    splitLastSlash_skip _ _ _ (fun c hc => hslash c (List.mem_reverse.mp hc))]
  simp only [List.reverse_reverse, List.append_nil]
  unfold splitLastSlash
  rw [if_pos ⟨rfl, hb, fun hnil => ha (List.reverse_eq_nil_iff.mp hnil)⟩]
  simp

/-- Failure case of `pathToRef`: a separator-free string does not match the
regex and the call throws. -/
theorem pathToRef_noSlash (s : String) (h : ∀ c ∈ s.data, c ≠ '/') :
    pathToRef s = .error ("Cannot parse path " ++ s) := by
  unfold pathToRef
  rw [splitLastSlash_none _ _ (fun c hc => h c (List.mem_reverse.mp hc))]

mutual

/-- Domain values of the round-trip law: `null`, booleans, numbers,
strings, `Date`s, proper references (non-empty collection path and id,
the id slash-free — the reference invariant of the data model), and
arrays / objects of domain values.  `undefined` (encoded to `null`), the
write-only field-value sentinels, and the store-native value classes are
excluded. -/
def isDomain : JSValue → Bool
  | .vNull => true
  | .vBool _ => true
  | .vNum _ => true
  | .vStr _ => true
  | .vDate _ => true
  | .vRef collectionPath id =>
    !collectionPath.data.isEmpty && !id.data.isEmpty &&
      decide (∀ c ∈ id.data, c ≠ '/')
  | .vArr elems => isDomainL elems
  | .vObj fields => isDomainF fields
  | _ => false

/-- Elementwise domain predicate over an array. -/
def isDomainL : JSList → Bool
  | .nil => true
  | .cons v vs => isDomain v && isDomainL vs

/-- Elementwise domain predicate over an object's fields. -/
def isDomainF : JSFields → Bool
  | .fnil => true
  | .fcons _ v rest => isDomain v && isDomainF rest

end

mutual

/-- Decoding the encoding of a domain value reproduces it. -/
theorem wrap_unwrap : ∀ (v : JSValue), isDomain v = true →
    wrapData (unwrapData v) = .ok v
  | .vNull, _ => rfl
  | .vBool _, _ => rfl
  | .vNum _, _ => rfl
  | .vStr _, _ => rfl
  | .vDate _, _ => rfl
  | .vRef c i, h => by
    simp only [isDomain, Bool.and_eq_true, Bool.not_eq_true', decide_eq_true_eq,
      List.isEmpty_eq_false] at h
    obtain ⟨⟨hc, hi⟩, hslash⟩ := h
    have hp := pathToRef_append c i hc hi hslash
    simp only [unwrapData, getRefPath, wrapData, hp]
  | .vArr l, h => by
    have hl := wrap_unwrap_list l (by simpa [isDomain] using h)
    simp only [unwrapData, wrapData, hl]
  | .vObj fs, h => by
    have hf := wrap_unwrap_fields fs (by simpa [isDomain] using h)
    simp only [unwrapData, wrapData, hf]
  | .vUndefined, h => by simp [isDomain] at h
  | .vTimestamp _, h => by simp [isDomain] at h
  | .vDocRef _, h => by simp [isDomain] at h
  | .vRemoveS, h => by simp [isDomain] at h
  | .vIncrementS _, h => by simp [isDomain] at h
  | .vArrayUnionS _, h => by simp [isDomain] at h
  | .vArrayRemoveS _, h => by simp [isDomain] at h
  | .vServerDateS, h => by simp [isDomain] at h
  | .fvDelete, h => by simp [isDomain] at h
  | .fvIncrement _, h => by simp [isDomain] at h
  | .fvArrayUnion _, h => by simp [isDomain] at h
  | .fvArrayRemove _, h => by simp [isDomain] at h
  | .fvServerTimestamp, h => by simp [isDomain] at h

/-- Round trip over an array of domain values. -/
theorem wrap_unwrap_list : ∀ (l : JSList), isDomainL l = true →
    wrapList (unwrapList l) = .ok l
  | .nil, _ => rfl
  | .cons v vs, h => by
    simp only [isDomainL, Bool.and_eq_true] at h
    have h1 := wrap_unwrap v h.1
    have h2 := wrap_unwrap_list vs h.2
    simp only [unwrapList, wrapList, h1, h2]

/-- Round trip over the fields of an object of domain values. -/
theorem wrap_unwrap_fields : ∀ (fs : JSFields), isDomainF fs = true →
    wrapFields (unwrapFields fs) = .ok fs
  | .fnil, _ => rfl
  | .fcons k v rest, h => by
    simp only [isDomainF, Bool.and_eq_true] at h
    have h1 := wrap_unwrap v h.1
    have h2 := wrap_unwrap_fields rest h.2
    simp only [unwrapFields, wrapFields, h1, h2]

end

/-- A value is not flagged by `isUndef` exactly when it is not `undefined`. -/
theorem isUndef_eq_false {v : JSValue} : isUndef v = false ↔ v ≠ .vUndefined := by
  cases v <;> simp [isUndef]

/-- Projection of the compiled query onto its cursor-method applications. -/
theorem compileQuery_cursorApps (qs : List Directive) :
    (compileQuery qs).cursorApps =
      if (qs.foldl qstep initQState).cursors.length ≠ 0 ∧
          ∀ c ∈ (qs.foldl qstep initQState).cursors, isUndef c.2 = false
      then groupCursors (qs.foldl qstep initQState).cursors else [] := rfl

/-- Projection of the compiled query onto its collected cursor list. -/
theorem compileQuery_cursors (qs : List Directive) :
    (compileQuery qs).cursors = (qs.foldl qstep initQState).cursors := rfl

/-- Projection of the compiled query onto its filters. -/
theorem compileQuery_wheres (qs : List Directive) :
    (compileQuery qs).wheres = (qs.foldl qstep initQState).wheres := rfl

/-- Pushing a cursor value always leaves at least one group. -/
theorem pushGroup_ne_nil (gs : List (String × List JSValue)) (pos : String)
    (v : JSValue) : pushGroup gs pos v ≠ [] := by
  unfold pushGroup
  split
  · rename_i hany
    cases gs with
    | nil => simp at hany
    | cons g gl => simp
  · simp

/-- The grouping fold never empties a non-empty group list. -/
theorem foldl_pushGroup_ne_nil (l : List (String × JSValue)) :
    ∀ gs, gs ≠ [] →
      l.foldl (fun gs c => pushGroup gs c.1 (unwrapData c.2)) gs ≠ [] := by
  induction l with
  | nil => intro gs h; simpa using h
  | cons c cl ih => intro gs _; exact ih _ (pushGroup_ne_nil _ _ _)

/-- Grouping a non-empty cursor list yields a non-empty group list. -/
theorem groupCursors_ne_nil (l : List (String × JSValue)) (h : l ≠ []) :
    groupCursors l ≠ [] := by
  cases l with
  | nil => exact absurd rfl h
  | cons c cl =>
    unfold groupCursors
    rw [List.foldl_cons]
    exact foldl_pushGroup_ne_nil cl _ (pushGroup_ne_nil _ _ _)

/-- Claim C1 (code bug): at the specification's own example
`update(id, [ \x7bkey:'a', value:1\x7d, null, \x7bkey:['b','c'], value:2\x7d ])`
the edit-list reducer does not skip the falsy entry as a no-op: its
callback returns no value for the falsy entry, the accumulator becomes
`undefined`, and the next assignment throws a `TypeError` instead of
applying the field map `\x7ba:1, 'b.c':2\x7d`. -/
theorem update_edit_list_crashes :
    updatePayload (.edits
      [some ⟨.str "a", .vNum 1⟩, none, some ⟨.segs ["b", "c"], .vNum 2⟩]) =
    .error "TypeError: cannot set properties of undefined" := rfl

/-- Claim C8: `getMany` on an empty id list returns an empty result and
performs zero `getAll` round trips — the short-circuit fires before the
batch-read primitive is invoked. -/
theorem getMany_empty_ids (store : List (String × JSValue))
    (onMissing : Option OnMissingOpt) :
    getMany store [] onMissing = (.ok [], 0) := rfl

/-- A concrete write callback, producing the literal object `\x7ba: 1\x7d`. -/
def writeFnEx : Unit → JSValue := fun _ => .vObj (.fcons "a" (.vNum 1) .fnil)

/-- Claim C6 (code bug): `set` hands a callback argument to the store as
the raw, never-invoked function object, while `add` (and `upset`)
resolve the same argument to its literal data and encode it; the two
payloads differ. -/
theorem set_does_not_resolve_callback :
    setPayload (.fn writeFnEx) = .rawFunction writeFnEx ∧
    addPayload (.fn writeFnEx) = .value (.vObj (.fcons "a" (.vNum 1) .fnil)) ∧
    setPayload (.fn writeFnEx) ≠ addPayload (.fn writeFnEx) :=
  ⟨rfl, rfl, fun h => StoreWrite.noConfusion h⟩

/-- Claim C3 counterexample: a path with two separators does not fail —
the greedy regex matches it, splitting at the last separator, so
`pathToRef` succeeds on `a/b/c` with collection path `a/b` and id `c`. -/
theorem pathToRef_two_separators_ok :
    pathToRef "a/b/c" = .ok ⟨"a/b", "c"⟩ := rfl

/-- Claim C3 as amended: `pathToRef` succeeds on any string of the form
`collectionPath ++ "/" ++ id` with a non-empty collection path and a
non-empty slash-free id, splitting at the last eligible separator
(`pathToRef "users/42"` yields collection path `users` and id `42`), and
fails with the malformed-path error on any separator-free string
(`pathToRef "users"` throws). -/
theorem pathToRef_characterization :
    (∀ a b : String, a.data ≠ [] → b.data ≠ [] → (∀ c ∈ b.data, c ≠ '/') →
      pathToRef (a ++ "/" ++ b) = .ok ⟨a, b⟩) ∧
    (∀ s : String, (∀ c ∈ s.data, c ≠ '/') →
      pathToRef s = .error ("Cannot parse path " ++ s)) :=
  ⟨pathToRef_append, pathToRef_noSlash⟩

/-- Witness for the amended claim C3 at the specification's examples. -/
theorem pathToRef_characterization_witness :
    pathToRef ("users" ++ "/" ++ "42") = .ok ⟨"users", "42"⟩ ∧
    pathToRef "users" = .error ("Cannot parse path " ++ "users") :=
  ⟨pathToRef_characterization.1 "users" "42" (by decide) (by decide) (by decide),
   pathToRef_characterization.2 "users" (by decide)⟩

/-- Claim C2: cursor methods are applied to the accumulator query exactly
when the collected cursor list is non-empty and every cursor in the
entire list has a defined resolved value; if any single cursor's
resolved value is `undefined`, no cursor method at all is applied. -/
theorem query_cursor_guard (qs : List Directive) :
    (compileQuery qs).cursorApps ≠ [] ↔
      ((compileQuery qs).cursors ≠ [] ∧
        ∀ c ∈ (compileQuery qs).cursors, c.2 ≠ JSValue.vUndefined) := by
  rw [compileQuery_cursorApps, compileQuery_cursors]
  by_cases hcond : (qs.foldl qstep initQState).cursors.length ≠ 0 ∧
      ∀ c ∈ (qs.foldl qstep initQState).cursors, isUndef c.2 = false
  · rw [if_pos hcond]
    obtain ⟨hlen, hall⟩ := hcond
    have hne : (qs.foldl qstep initQState).cursors ≠ [] := by
      simpa [List.length_eq_zero] using hlen
    constructor
    · intro _
      exact ⟨hne, fun c hc => isUndef_eq_false.mp (hall c hc)⟩
    · intro _
      exact groupCursors_ne_nil _ hne
  · rw [if_neg hcond]
    constructor
    · intro h
      exact absurd rfl h
    · rintro ⟨hne, hall⟩
      exact absurd
        ⟨by simpa [List.length_eq_zero] using hne,
         fun c hc => isUndef_eq_false.mpr (hall c hc)⟩ hcond

/-- Claim C7: two `order` directives each carrying a `startAt` cursor with
defined values compile into a single `startAt` application whose
argument list carries the encoded cursor values in the declared
order-by field order. -/
theorem query_cursor_grouping (f1 f2 : QField) (m1 m2 : String)
    (v1 v2 : JSValue) (h1 : v1 ≠ JSValue.vUndefined)
    (h2 : v2 ≠ JSValue.vUndefined) :
    compileQuery
      [.order f1 m1 (some [⟨"startAt", .plain v1⟩]),
       .order f2 m2 (some [⟨"startAt", .plain v2⟩])] =
    ⟨[(orderFieldSel f1, m1), (orderFieldSel f2, m2)], [], [],
      [("startAt", v1), ("startAt", v2)],
      [("startAt", [unwrapData v1, unwrapData v2])]⟩ := by
  have hu1 : isUndef v1 = false := isUndef_eq_false.mpr h1
  have hu2 : isUndef v2 = false := isUndef_eq_false.mpr h2
  unfold compileQuery
  simp only [List.foldl_cons, List.foldl_nil]
  rw [if_pos]
  · simp [qstep, initQState, resolveCursorVal, groupCursors, pushGroup]
  · constructor
    · simp [qstep, initQState]
    · intro c hc
      simp [qstep, initQState, resolveCursorVal] at hc
      rcases hc with hc | hc <;> rw [hc] <;> assumption

/-- The filter contributed to the compiled query by one `where` directive:
the substituted field selector, the operator, and the value encoded by
`unwrapData`. -/
def whereEntry : Directive → Option (FieldSel × String × JSValue)
  | .whereD f op v => some (whereFieldSel f, op, unwrapData v)
  | _ => none

/-- The filters of the folded accumulator are exactly the `where`
directives' contributions, in order. -/
theorem foldl_qstep_wheres (qs : List Directive) :
    ∀ st : QState, (qs.foldl qstep st).wheres = st.wheres ++ qs.filterMap whereEntry := by
  induction qs with
  | nil => intro st; simp
  | cons q ql ih =>
    intro st
    rw [List.foldl_cons, ih]
    cases q <;> simp [qstep, whereEntry]

/-- Claim C9: a `where` directive on the document-id placeholder compiles
to a filter on the store's native id selector (not on a data field), with
its comparison value encoded by the Marshaller. -/
theorem query_where_docId (qs : List Directive) (op : String) (v : JSValue)
    (h : Directive.whereD .docId op v ∈ qs) :
    (FieldSel.documentId, op, unwrapData v) ∈ (compileQuery qs).wheres := by
  rw [compileQuery_wheres, foldl_qstep_wheres qs initQState]
  refine List.mem_append_right _ (List.mem_filterMap.mpr ⟨_, h, rfl⟩)

/-- Witness for claim C7 at concrete fields and cursor values. -/
theorem query_cursor_grouping_witness :
    compileQuery
      [.order (.name "f") "asc" (some [⟨"startAt", .plain (.vNum 1)⟩]),
       .order (.name "g") "asc" (some [⟨"startAt", .plain (.vNum 2)⟩])] =
    ⟨[(.fieldPath "f", "asc"), (.fieldPath "g", "asc")], [], [],
      [("startAt", .vNum 1), ("startAt", .vNum 2)],
      [("startAt", [.vNum 1, .vNum 2])]⟩ :=
  query_cursor_grouping (.name "f") (.name "g") "asc" "asc" (.vNum 1) (.vNum 2)
    (fun h => JSValue.noConfusion h) (fun h => JSValue.noConfusion h)

/-- Witness for claim C9 at the specification's example
`where(docId, '>=', 'a')`. -/
theorem query_where_docId_witness :
    (FieldSel.documentId, ">=", JSValue.vStr "a") ∈
      (compileQuery [.whereD .docId ">=" (.vStr "a")]).wheres :=
  query_where_docId [.whereD .docId ">=" (.vStr "a")] ">=" (.vStr "a")
    (List.mem_singleton.mpr rfl)

/-- Under the default policy, the snapshot map throws the descriptive
missing-document error for the first missing id, provided decoding
succeeds on the found documents before it. -/
theorem mapSnaps_default_missing (store : List (String × JSValue))
    (w : String → JSValue)
    (hw : ∀ id d, lookupStore store id = some d → wrapData d = .ok (w id)) :
    ∀ (ids : List String) (m : String),
      ids.find? (fun id => (lookupStore store id).isNone) = some m →
      mapSnaps none (ids.map fun id => (id, lookupStore store id)) =
        .error ("Missing document with id " ++ m) := by
  intro ids
  induction ids with
  | nil => intro m hm; simp at hm
  | cons id rest ih =>
    intro m hm
    cases hlook : lookupStore store id with
    | none =>
      rw [List.find?_cons_of_pos _ (by rw [hlook]; rfl)] at hm
      have hmid : id = m := by simpa using hm
      subst hmid
      simp [mapSnaps, processSnap, defaultOnMissing, hlook]
    | some d =>
      rw [List.find?_cons_of_neg _ (by rw [hlook]; simp)] at hm
      simp [mapSnaps, processSnap, hlook, hw id d hlook, ih m hm]

/-- Under the `'ignore'` policy, missing ids are dropped and the found
documents are returned decoded, in id order. -/
theorem mapSnaps_ignore (store : List (String × JSValue))
    (w : String → JSValue)
    (hw : ∀ id d, lookupStore store id = some d → wrapData d = .ok (w id)) :
    ∀ ids : List String,
      mapSnaps (some .ignore) (ids.map fun id => (id, lookupStore store id)) =
        .ok (ids.filterMap fun id =>
          (lookupStore store id).map fun _ => DocM.mk id (w id)) := by
  intro ids
  induction ids with
  | nil => rfl
  | cons id rest ih =>
    cases hlook : lookupStore store id with
    | none => simp [mapSnaps, processSnap, hlook, ih]
    | some d => simp [mapSnaps, processSnap, hlook, hw id d hlook, ih]

/-- Under a callback policy, every id appears in the result: found ids with
their decoded data, missing ids with a placeholder synthesized from the
callback. -/
theorem mapSnaps_callback (store : List (String × JSValue))
    (w f : String → JSValue)
    (hw : ∀ id d, lookupStore store id = some d → wrapData d = .ok (w id)) :
    ∀ ids : List String,
      mapSnaps (some (.callback f)) (ids.map fun id => (id, lookupStore store id)) =
        .ok (ids.map fun id =>
          DocM.mk id (if (lookupStore store id).isSome then w id else f id)) := by
  intro ids
  induction ids with
  | nil => rfl
  | cons id rest ih =>
    cases hlook : lookupStore store id with
    | none => simp [mapSnaps, processSnap, hlook, ih]
    | some d => simp [mapSnaps, processSnap, hlook, hw id d hlook, ih]

/-- Claim C5: when some requested id has no document (and the found
documents decode, their decoded data being `w id`), the default policy
throws the descriptive missing-document error naming the first missing
id, the `'ignore'` policy drops missing ids and returns only found
documents, and a callback policy synthesizes a placeholder document per
missing id so every id appears in the result. -/
theorem getMany_onMissing_policies (store : List (String × JSValue))
    (ids : List String) (m : String) (f w : String → JSValue)
    (hw : ∀ id d, lookupStore store id = some d → wrapData d = .ok (w id))
    (hm : ids.find? (fun id => (lookupStore store id).isNone) = some m) :
    (getMany store ids none).1 = .error ("Missing document with id " ++ m) ∧
    (getMany store ids (some .ignore)).1 =
      .ok (ids.filterMap fun id =>
        (lookupStore store id).map fun _ => DocM.mk id (w id)) ∧
    (getMany store ids (some (.callback f))).1 =
      .ok (ids.map fun id =>
        DocM.mk id (if (lookupStore store id).isSome then w id else f id)) := by
  have hne : ids ≠ [] := by
    intro hnil
    subst hnil
    simp at hm
  have hlen : ¬ ids.length = 0 := by simpa [List.length_eq_zero] using hne
  unfold getMany
  rw [if_neg hlen, if_neg hlen, if_neg hlen]
  exact ⟨mapSnaps_default_missing store w hw ids m hm,
    mapSnaps_ignore store w hw ids, mapSnaps_callback store w f hw ids⟩

/-- In a one-document store, a successful lookup returns that document's
data. -/
theorem lookupStore_singleton {k : String} {x d : JSValue} {id : String}
    (h : lookupStore [(k, x)] id = some d) : d = x := by
  unfold lookupStore at h
  cases hf : List.find? (fun p => p.1 == id) [(k, x)] with
  | none => rw [hf] at h; simp at h
  | some p =>
    rw [hf] at h
    have hp : p = (k, x) := by simpa using List.mem_of_find?_eq_some hf
    simp [hp] at h
    exact h.symm

/-- The store of the specification's `getMany` example: one document `a`
with data `\x7bname:'X'\x7d`. -/
def storeEx : List (String × JSValue) :=
  [("a", .vObj (.fcons "name" (.vStr "X") .fnil))]

/-- The placeholder data `\x7bname:'unknown'\x7d` of the example callback. -/
def unknownData : JSValue := .vObj (.fcons "name" (.vStr "unknown") .fnil)

/-- The stored data `\x7bname:'X'\x7d` of the example document. -/
def nameX : JSValue := .vObj (.fcons "name" (.vStr "X") .fnil)

/-- Witness for claim C5 at the specification's example: store `\x7ba:
\x7bname:'X'\x7d\x7d` and `ids = ['a','b']`. -/
theorem getMany_onMissing_policies_witness :
    (getMany storeEx ["a", "b"] none).1 =
      .error ("Missing document with id " ++ "b") ∧
    (getMany storeEx ["a", "b"] (some .ignore)).1 =
      .ok (["a", "b"].filterMap fun id =>
        (lookupStore storeEx id).map fun _ => DocM.mk id nameX) ∧
    (getMany storeEx ["a", "b"] (some (.callback fun _ => unknownData))).1 =
      .ok (["a", "b"].map fun id =>
        DocM.mk id (if (lookupStore storeEx id).isSome then nameX
          else unknownData)) :=
  getMany_onMissing_policies storeEx ["a", "b"] "b" (fun _ => unknownData)
    (fun _ => nameX)
    (fun _ d hd => by rw [lookupStore_singleton hd]; rfl)
    (by decide)

/-- Claim C4: for every domain value — Date, nested object, array,
Reference, primitive — decoding the encoding reproduces the value
structurally (`wrapData (unwrapData x) = x`); field-value sentinels are
write-only and excluded from the domain of this law. -/
theorem decode_encode_roundtrip (v : JSValue) (h : isDomain v = true) :
    wrapData (unwrapData v) = .ok v :=
  wrap_unwrap v h

/-- A nested domain value exercising Date, Reference, array, object and
primitive leaves at once. -/
def domainEx : JSValue :=
  .vObj (.fcons "d" (.vDate 100) (.fcons "r" (.vRef "users" "42")
    (.fcons "arr"
      (.vArr (.cons (.vNum 3) (.cons .vNull (.cons (.vStr "s") .nil))))
      (.fcons "b" (.vBool true) .fnil))))

/-- Witness for claim C4 at a concrete nested domain value. -/
theorem decode_encode_roundtrip_witness :
    isDomain domainEx = true ∧ wrapData (unwrapData domainEx) = .ok domainEx :=
  ⟨rfl, decode_encode_roundtrip domainEx rfl⟩
